import Mathlib

/-!
Formal model of the ag-ui-client event-chain engine.

The development shallowly embeds the declarative `UIBridge` class
(`src/lib/event-bridge`, the variant with `chain`/`consume`) together with
`UIChainBuilder`.  Dynamic JavaScript values are modelled by `JVal`; objects
(`Record<string, any>`) by association lists; the asynchronous executor
`_executeChain` by a structurally recursive function whose environment maps an
event name to the observable behaviour of its registered listener (absent,
stalling, or resolving the per-step promise with a value); `consume` by a
state-passing function that also emits a trace of its observable actions, in
the order the synchronous JavaScript statements perform them.
-/

namespace AgUi

/-- Runtime JavaScript values, as far as the engine inspects them: numbers,
strings, booleans, `null`, and plain objects (field lists).  `undefined` is
represented by absence (`Option`). -/
inductive JVal where
  | num (n : Int)
  | str (s : String)
  | boolean (b : Bool)
  | null
  | obj (fields : List (String × JVal))


/-- A JavaScript object (`Record<string, any>`): a list of fields.  Lookup
takes the first binding of a key. -/
abbrev Obj := List (String × JVal)

/-- Property read `o[k]`: `none` models `undefined`. -/
def lookupField (o : Obj) (k : String) : Option JVal :=
  match o with
  | [] => none
  | (k', v) :: rest => if k' = k then some v else lookupField rest k

/-- Drop every binding of `k`. -/
def removeField (o : Obj) (k : String) : Obj :=
  match o with
  | [] => []
  | (k', v) :: rest => if k' = k then removeField rest k else (k', v) :: removeField rest k

/-- The object `{...o, k: v}` as the engine observes it: every field of `o`
except `k`, plus the binding `k := v`. -/
def setField (o : Obj) (k : String) (v : JVal) : Obj :=
  removeField o k ++ [(k, v)]

/-- JavaScript truthiness of a value (`NaN` is not modelled; numbers are
integers).  Every object, in particular `{}`, is truthy. -/
def truthy : JVal → Bool
  | .num n => n ≠ 0
  | .str s => s ≠ ""
  | .boolean b => b
  | .null => false
  | .obj _ => true

/-- The JavaScript expression `v || {}` applied to a possibly-`undefined`
value: the value itself when present and truthy, otherwise `{}`. -/
def jsOrEmpty : Option JVal → JVal
  | some v => if truthy v then v else .obj []
  | none => .obj []

/-- One step of a chain: `UIEventChainItem { event, props }`. -/
structure ChainItem where
  event : String
  props : Obj


/-- A declared chain record, as returned by `UIChainBuilder.build`. -/
structure DeclaredChain where
  id : String
  items : List ChainItem
  createdAt : Nat
  metadata : Obj


/-! ### The dispatch substrate and the executor (`UIBridge._executeChain`)

The executor dispatches each step's event through the emitter.  All
listeners reachable through the engine's API (wrapped `on` callbacks and the
built-in sleep listener) interact with a step only by invoking the step's
continuation (`resolve`) at most once, with at most one argument; a listener's
observable behaviour on a given execution context is therefore one of:
never invoking the continuation (the step, and with it the whole `consume`
promise, stalls forever), invoking it with no argument, or invoking it with a
value.  The per-step promise keeps only the first resolution. -/

/-- Observable behaviour of the listeners registered for one event name, on a
given execution context: `none` means the continuation is never invoked
(stall); `some none` means it is invoked with no argument; `some (some v)`
means it is first invoked with value `v`. -/
abbrev Handler := Obj → Option (Option JVal)

/-- The emitter's registration table: `none` models
`listenerCount(event) = 0`. -/
abbrev Env := String → Option Handler

/-- The reserved sleep event name, `SLEEP_EVENT = "__SLEEP__"`. -/
def SLEEP_EVENT : String := "__SLEEP__"

/-- The built-in sleep listener registered in the `UIBridge` constructor:
`(props, next) => { setTimeout(() => next(props.prev || {}), duration) }`.
The timer only delays the continuation; data-wise the continuation receives
`props.prev || {}`.  Wall-clock time is not modelled. -/
def sleepListener : Handler :=
  fun props => some (some (jsOrEmpty (lookupField props "prev")))

/-- The emitter state established by the `UIBridge` constructor: only the
sleep listener is registered. -/
def bridgeEnv : Env :=
  fun e => if e = SLEEP_EVENT then some sleepListener else none

/-- Outcome of running a chain: the final carry-forward value, or a stall at
the named event (a listener that never invoked its continuation). -/
inductive ExecResult where
  | done (v : JVal)
  | stalled (event : String)

/-- Run of the executor: the events of the steps it processed, in order, and
its outcome. -/
structure ExecOut where
  processed : List String
  result : ExecResult

/-- The loop body of `UIBridge._executeChain`, from the source:

for each item: build `eventProps = {...item.props, prev: prevProps}`; if the
event has a listener, dispatch and await the continuation — the value it
receives (default `{}`) becomes the new carry-forward; otherwise the
carry-forward becomes `eventProps` itself. -/
def executeChainFrom (env : Env) : List ChainItem → JVal → ExecOut
  | [], prev => ⟨[], .done prev⟩
  | item :: rest, prev =>
    let eventProps := setField item.props "prev" prev
    match env item.event with
    | some h =>
      match h eventProps with
      | none => ⟨[item.event], .stalled item.event⟩
      | some arg =>
        let out := executeChainFrom env rest (arg.getD (.obj []))
        ⟨item.event :: out.processed, out.result⟩
    | none =>
      let out := executeChainFrom env rest (.obj eventProps)
      ⟨item.event :: out.processed, out.result⟩

/-- `UIBridge._executeChain(items)`: the loop started with `prevProps = {}`. -/
def executeChain (env : Env) (items : List ChainItem) : ExecOut :=
  executeChainFrom env items (.obj [])

/-! ### The chain store and `UIBridge.consume` -/

/-- `Map.get` on a string-keyed association list. -/
def mapGet {α : Type} : List (String × α) → String → Option α
  | [], _ => none
  | (k, c) :: rest, id => if k = id then some c else mapGet rest id

/-- `Map.delete` on a string-keyed association list. -/
def mapDelete {α : Type} : List (String × α) → String → List (String × α)
  | [], _ => []
  | (k, c) :: rest, id =>
    if k = id then mapDelete rest id else (k, c) :: mapDelete rest id

/-- `Map.set`: overwrite any binding of `id`, then bind `id` to `c`. -/
def mapSet {α : Type} (st : List (String × α)) (id : String) (c : α) :
    List (String × α) :=
  mapDelete st id ++ [(id, c)]

/-- The `_declaredChains` map, as an association list keyed by chain id. -/
abbrev Store := List (String × DeclaredChain)

/-- `Map.get` on the chain store. -/
def storeGet (st : Store) (id : String) : Option DeclaredChain :=
  mapGet st id

/-- `Map.delete` on the chain store. -/
def storeDelete (st : Store) (id : String) : Store :=
  mapDelete st id

/-- Observable actions of one `consume` call, in the order the source
statements perform them.  `removeFromStore` is the synchronous
`this._declaredChains.delete(chainId)` executed before `_executeChain` is
entered; `stepProcessed` is one iteration of the executor loop. -/
inductive ConsumeAction where
  | warnUnknown (id : String)
  | removeFromStore (id : String)
  | stepProcessed (event : String)

/-- What the promise returned by `consume` does: resolve with `undefined`
(unknown chain), resolve with the final carry-forward value, or never settle
(a listener stalled). -/
inductive ConsumeResult where
  | unknown
  | done (v : JVal)
  | stalled (event : String)

/-- Result of one `consume(id)` call: the store it leaves behind, its action
trace, and the fate of its promise. -/
structure ConsumeOut where
  store : Store
  trace : List ConsumeAction
  result : ConsumeResult

/-- `UIBridge.consume(chainId)`, from the source: look the id up; if absent,
warn and return `undefined`; if present, synchronously delete the entry
(before any asynchronous work — `delete` precedes the first suspension point
of this `async` function), then run `_executeChain` on the recorded items.

A re-entrant `consume(id)` issued before the first call's promise settles
runs its own synchronous lookup only after the first call's synchronous
prefix — which contains the delete — so it is modelled by running `consume`
against the store this call leaves behind. -/
def consume (env : Env) (st : Store) (id : String) : ConsumeOut :=
  match storeGet st id with
  | none => ⟨st, [.warnUnknown id], .unknown⟩
  | some chain =>
    let st' := storeDelete st id
    let out := executeChain env chain.items
    ⟨st', .removeFromStore id :: out.processed.map .stepProcessed,
      match out.result with
      | .done v => .done v
      | .stalled e => .stalled e⟩

/-! ### The handler wrapper installed by `UIBridge.on`

`on(event, callback)` registers not `callback` itself but an `async`
wrapper.  The wrapper's control flow depends only on what the callback body
observably does: whether it invokes the provided `stop` signal (during the
body, or — for a callback returning a promise — between returning and the
promise settling), and what it returns (throwing; a plain value; or a
thenable, i.e. `result && typeof result.then === 'function'`, which the
wrapper awaits).  The model captures exactly these observables. -/

/-- A settled plain (non-thenable) result of the callback:
`undefined`; a non-null object; or a defined non-object value
(`typeof result === "object" && result !== null` fails). -/
inductive SyncVal where
  | undef
  | objVal (o : Obj)
  | scalarVal (v : JVal)

/-- How a returned promise settles, and whether the callback invoked `stop`
between returning the promise and the settlement. -/
inductive PromiseSettle where
  | fulfilled (stoppedBeforeSettle : Bool) (v : SyncVal)
  | rejected (stoppedBeforeSettle : Bool)

/-- What the callback body does: return a plain value, return a thenable, or
throw.  Each constructor records whether `stop` was invoked during the body
itself. -/
inductive BodyOutcome where
  | ret (stoppedInBody : Bool) (v : SyncVal)
  | retPromise (stoppedInBody : Bool) (p : PromiseSettle)
  | throws (stoppedInBody : Bool)

/-- Whether the callback invoked `stop` at any point the wrapper can still
observe it. -/
def stopInvoked : BodyOutcome → Bool
  | .ret s _ => s
  | .throws s => s
  | .retPromise s (.fulfilled s' _) => s || s'
  | .retPromise s (.rejected s') => s || s'

/-- Observable behaviour of one registered callback: the arguments of the
callback's own direct invocations of `next` before the wrapper reaches its
own call (possibly none), and the body outcome. -/
structure HandlerBehavior where
  nextInBody : List (Option JVal)
  outcome : BodyOutcome

/-- The diagnostic line of the wrapper's `catch` branch:
`console.error('Error in event handler for "<event>":', error)`. -/
def handlerErrorLog (event : String) : String :=
  "Error in event handler for \"" ++ event ++ "\":"

/-- Output of one run of the wrapper: the wrapper's own invocations of `next`
(argument, or no argument), in order, and the `console.error` lines it
emits. -/
structure WrapOut where
  wrapperNext : List (Option JVal)
  logs : List String

/-- The result-forwarding rule of the wrapper, shared by the synchronous and
the awaited branch of the source: an object result is passed to `next`
verbatim; a defined non-object result is passed as
`{ value: result, prev: props }`; `undefined` forwards `props` unchanged. -/
def forwardResult (v : SyncVal) (props : Obj) : Option JVal :=
  match v with
  | .undef => some (.obj props)
  | .objVal o => some (.obj o)
  | .scalarVal s => some (.obj [("value", s), ("prev", .obj props)])

/-- The wrapped callback of `UIBridge.on`, from the source: run the callback;
on a throw (or a rejected returned promise), log the tagged diagnostic and —
unless `stop` was invoked — call `next(props)`; if `stop` was invoked, return
without calling `next`; otherwise forward the (possibly awaited) result via
`forwardResult`. -/
def wrappedCallback (b : BodyOutcome) (event : String) (props : Obj) : WrapOut :=
  match b with
  | .throws s =>
    ⟨if s then [] else [some (.obj props)], [handlerErrorLog event]⟩
  | .ret s v =>
    if s then ⟨[], []⟩ else ⟨[forwardResult v props], []⟩
  | .retPromise s p =>
    if s then ⟨[], []⟩
    else
      match p with
      | .fulfilled s' v => if s' then ⟨[], []⟩ else ⟨[forwardResult v props], []⟩
      | .rejected s' =>
        ⟨if s' then [] else [some (.obj props)], [handlerErrorLog event]⟩

/-- All invocations of the step's continuation caused by one dispatch to the
wrapped callback, in temporal order: the callback's own direct calls, then
the wrapper's. -/
def allNextCalls (b : HandlerBehavior) (event : String) (props : Obj) :
    List (Option JVal) :=
  b.nextInBody ++ (wrappedCallback b.outcome event props).wrapperNext

/-- The listener behaviour, as the executor sees it, of an event whose only
registered callback behaves like `b`: the per-step promise keeps the first
resolution. -/
def behaviorListener (b : HandlerBehavior) (event : String) : Handler :=
  fun props => (allNextCalls b event props).head?

/-- An emitter table with a single registered event. -/
def singleEnv (event : String) (h : Handler) : Env :=
  fun e => if e = event then some h else none

/-! ### `UIChainBuilder` and the declarative `chain(...).build()` proxy

The builder mutates a private `items` array in place, and `build()` returns a
record holding a fresh copy `[...this.items]` of it.  To reason about the
sharing of step arrays, arrays live in a small heap and builders and built
records hold references into it. -/

/-- One item of the `batch` input: `UIEventBatchItem { event, props? }`. -/
structure UIEventBatchItem where
  event : String
  props : Option Obj

/-- Positional read in a list of arrays (empty for a dangling index). -/
def arrGet : List (List ChainItem) → Nat → List ChainItem
  | [], _ => []
  | x :: _, 0 => x
  | _ :: rest, r + 1 => arrGet rest r

/-- Positional overwrite in a list of arrays (no-op for a dangling index). -/
def arrSet : List (List ChainItem) → Nat → List ChainItem → List (List ChainItem)
  | [], _, _ => []
  | _ :: rest, 0, v => v :: rest
  | x :: rest, r + 1, v => x :: arrSet rest r v

/-- A heap of step arrays; a reference is an index. -/
structure BuilderHeap where
  arrays : List (List ChainItem)

/-- Read the array a reference denotes. -/
def heapGet (h : BuilderHeap) (r : Nat) : List ChainItem :=
  arrGet h.arrays r

/-- Overwrite the array a reference denotes. -/
def heapSet (h : BuilderHeap) (r : Nat) (xs : List ChainItem) : BuilderHeap :=
  ⟨arrSet h.arrays r xs⟩

/-- Allocate a fresh array. -/
def heapAlloc (h : BuilderHeap) (xs : List ChainItem) : BuilderHeap × Nat :=
  (⟨h.arrays ++ [xs]⟩, h.arrays.length)

/-- A reference is valid when it denotes an allocated array. -/
def validRef (h : BuilderHeap) (r : Nat) : Prop :=
  r < h.arrays.length

/-- A `UIChainBuilder` instance: its chain id, the reference to its private
`items` array, and its `metadata` field. -/
structure UIChainBuilder where
  chainId : String
  itemsRef : Nat
  metadata : Obj

/-- `new UIChainBuilder(chainId)`: fresh empty items array, empty metadata. -/
def newBuilder (h : BuilderHeap) (chainId : String) : BuilderHeap × UIChainBuilder :=
  let (h', r) := heapAlloc h []
  (h', ⟨chainId, r, []⟩)

/-- `UIChainBuilder.add(event, props = {})`: push `{ event, props }` onto the
items array; the builder object itself is unchanged. -/
def builderAdd (h : BuilderHeap) (b : UIChainBuilder) (event : String) (props : Obj) :
    BuilderHeap :=
  heapSet h b.itemsRef (heapGet h b.itemsRef ++ [⟨event, props⟩])

/-- `UIChainBuilder.sleep(duration)`: sugar for
`add(SLEEP_EVENT, { duration })`. -/
def builderSleep (h : BuilderHeap) (b : UIChainBuilder) (duration : JVal) : BuilderHeap :=
  builderAdd h b SLEEP_EVENT [("duration", duration)]

/-- The guard of `UIChainBuilder.batch`, from the source:
`item.event === "sleep" && item.props?.duration` — the event name is the
delay convention name and the item carries a truthy `duration`. -/
def isBatchSleep (item : UIEventBatchItem) : Bool :=
  item.event = "sleep" &&
    match item.props with
    | some p =>
      match lookupField p "duration" with
      | some v => truthy v
      | none => false
    | none => false

/-- The `duration` value a matching batch item passes to `sleep`. -/
def batchDuration (item : UIEventBatchItem) : JVal :=
  (lookupField (item.props.getD []) "duration").getD .null

/-- `UIChainBuilder.batch(events)`: for each item in order, `sleep` when the
guard matches, otherwise `add(item.event, item.props || {})`.  Nothing is
cleared first. -/
def builderBatch (h : BuilderHeap) (b : UIChainBuilder) (events : List UIEventBatchItem) :
    BuilderHeap :=
  events.foldl
    (fun h item =>
      if isBatchSleep item then builderSleep h b (batchDuration item)
      else builderAdd h b item.event (item.props.getD []))
    h

/-- `UIChainBuilder.meta(metadata)`: merge into the accumulated metadata. -/
def builderMeta (b : UIChainBuilder) (metadata : Obj) : UIChainBuilder :=
  { b with metadata := metadata.foldl (fun acc kv => setField acc kv.1 kv.2) b.metadata }

/-- A built chain record whose `items` array is a heap reference. -/
structure DeclaredChainRef where
  id : String
  itemsRef : Nat
  createdAt : Nat
  metadata : Obj

/-- `UIChainBuilder.build()`: allocate the copy `[...this.items]` and return
the record `{ id, items: <copy>, createdAt: Date.now(), metadata:
{...this.metadata} }`.  The time `now` is a parameter; the top-level spread of
`metadata` yields a field-for-field equal object. -/
def builderBuild (h : BuilderHeap) (b : UIChainBuilder) (now : Nat) :
    BuilderHeap × DeclaredChainRef :=
  let (h', r) := heapAlloc h (heapGet h b.itemsRef)
  (h', ⟨b.chainId, r, now, b.metadata⟩)

/-- The reference-level store of the proxy (`_declaredChains`). -/
abbrev StoreRef := List (String × DeclaredChainRef)

/-- The `build` arm of the proxy returned by `UIBridge.chain(chainId)`:
`const chain = builder.build(); this._declaredChains.set(chainId, chain);
return chain`. -/
def proxyBuild (h : BuilderHeap) (st : StoreRef) (b : UIChainBuilder) (now : Nat) :
    BuilderHeap × StoreRef × DeclaredChainRef :=
  let (h', c) := builderBuild h b now
  (h', mapSet st b.chainId c, c)

/-! ### Concrete instances used to exercise the theorems -/

/-- A declared chain with a single ordinary step. -/
def demoChainX : DeclaredChain := ⟨"t", [⟨"x", [("n", .num 1)]⟩], 0, []⟩

/-- A store declaring `demoChainX` under id `"t"`. -/
def demoStore : Store := [("t", demoChainX)]

/-- A declared chain with an empty steps list. -/
def demoEmptyChain : DeclaredChain := ⟨"t0", [], 0, []⟩

/-- A store declaring `demoEmptyChain` under id `"t0"`. -/
def demoStoreE : Store := [("t0", demoEmptyChain)]

/-- A heap with one allocated step array holding one step. -/
def demoHeap : BuilderHeap := ⟨[[⟨"x", []⟩]]⟩

/-- A builder whose items array is the single array of `demoHeap`. -/
def demoBuilder : UIChainBuilder := ⟨"c1", 0, [("m", .num 1)]⟩

/-! ### Spec-side description of the executor

For the data-threading claim, a second definition written from the spec's
sentences (§4.2 steps 3–5), to be compared with `executeChain` above. -/

/-- Spec wording, one step: the step's execution context is its own
parameters merged with `prev` = the carry-forward context; with no registered
handler the new carry-forward is that execution context itself; otherwise it
is the value passed to the continuation, defaulting to the empty mapping.
(The branch for a continuation that is never invoked is immaterial: the claim
presupposes every handler eventually invokes it.) -/
def specStepCarry (env : Env) (carry : JVal) (item : ChainItem) : JVal :=
  let ctx := setField item.props "prev" carry
  match env item.event with
  | none => .obj ctx
  | some h =>
    match h ctx with
    | some arg => arg.getD (.obj [])
    | none => .obj []

/-- Spec wording, whole chain: fold `specStepCarry` over the steps in
declared order, starting from the empty mapping; the final carry-forward is
the result of `consume`. -/
def specFinalContext (env : Env) (items : List ChainItem) : JVal :=
  items.foldl (specStepCarry env) (.obj [])

/-! ### Supporting lemmas -/

/-- Reading back the key just written by `setField` yields the new value. -/
theorem lookupField_setField (o : Obj) (k : String) (v : JVal) :
    lookupField (setField o k v) k = some v := by
  unfold setField
  induction o with
  | nil => simp [lookupField]
  | cons kv rest ih =>
    obtain ⟨k', w⟩ := kv
    by_cases h : k' = k
    · simpa [removeField, h] using ih
    · simpa [removeField, h, lookupField] using ih

/-- When every registered listener invokes its continuation, the executor
processes every step in order and its final carry-forward is the spec-side
fold. -/
theorem executeChainFrom_noStall (env : Env)
    (hns : ∀ e h, env e = some h → ∀ ctx, (h ctx).isSome = true) :
    ∀ (items : List ChainItem) (prev : JVal),
      executeChainFrom env items prev =
        ⟨items.map (fun i => i.event), .done (items.foldl (specStepCarry env) prev)⟩ := by
  intro items
  induction items with
  | nil => intro prev; rfl
  | cons item rest ih =>
    intro prev
    cases henv : env item.event with
    | none =>
      simp only [executeChainFrom, henv, ih, List.map, List.foldl, specStepCarry]
    | some h =>
      have hsome := hns item.event h henv (setField item.props "prev" prev)
      cases harg : h (setField item.props "prev" prev) with
      | none => rw [harg] at hsome; simp at hsome
      | some arg =>
        simp only [executeChainFrom, henv, harg, ih, List.map, List.foldl, specStepCarry]

/-- Deleting a key removes every binding of it. -/
theorem mapGet_mapDelete {α : Type} (st : List (String × α)) (id : String) :
    mapGet (mapDelete st id) id = none := by
  induction st with
  | nil => rfl
  | cons kv rest ih =>
    obtain ⟨k, c⟩ := kv
    by_cases h : k = id
    · simpa [mapDelete, h] using ih
    · simpa [mapDelete, mapGet, h] using ih

/-- Reading back the key just written by `mapSet` yields the new value. -/
theorem mapGet_mapSet {α : Type} (st : List (String × α)) (id : String) (c : α) :
    mapGet (mapSet st id c) id = some c := by
  unfold mapSet
  induction st with
  | nil => simp [mapGet]
  | cons kv rest ih =>
    obtain ⟨k, v⟩ := kv
    by_cases h : k = id
    · simpa [mapDelete, h] using ih
    · simpa [mapDelete, mapGet, h] using ih

/-- Reading the slot just allocated at the end of the heap. -/
theorem arrGet_append_length (l : List (List ChainItem)) (x : List ChainItem) :
    arrGet (l ++ [x]) l.length = x := by
  induction l with
  | nil => rfl
  | cons y rest ih => simpa [arrGet] using ih

/-- Overwriting a slot keeps the heap's size. -/
theorem length_arrSet (l : List (List ChainItem)) (r : Nat) (v : List ChainItem) :
    (arrSet l r v).length = l.length := by
  induction l generalizing r with
  | nil => rfl
  | cons x rest ih =>
    cases r with
    | zero => rfl
    | succ r => simpa [arrSet] using ih r

/-- Reading a slot just overwritten. -/
theorem arrGet_arrSet_self (l : List (List ChainItem)) (r : Nat) (v : List ChainItem)
    (h : r < l.length) : arrGet (arrSet l r v) r = v := by
  induction l generalizing r with
  | nil => simp at h
  | cons x rest ih =>
    cases r with
    | zero => rfl
    | succ r => exact ih r (by simpa using h)

/-- Overwriting one slot leaves every other slot unchanged. -/
theorem arrGet_arrSet_ne (l : List (List ChainItem)) (r r' : Nat) (v : List ChainItem)
    (h : r ≠ r') : arrGet (arrSet l r v) r' = arrGet l r' := by
  induction l generalizing r r' with
  | nil => rfl
  | cons x rest ih =>
    cases r with
    | zero =>
      cases r' with
      | zero => exact absurd rfl h
      | succ r' => rfl
    | succ r =>
      cases r' with
      | zero => rfl
      | succ r' => exact ih r r' (fun hc => h (by rw [hc]))

/-- `add` appends the new step to the builder's own array. -/
theorem heapGet_builderAdd_self (h : BuilderHeap) (b : UIChainBuilder) (e : String)
    (p : Obj) (hv : validRef h b.itemsRef) :
    heapGet (builderAdd h b e p) b.itemsRef = heapGet h b.itemsRef ++ [⟨e, p⟩] := by
  unfold validRef at hv
  simp [builderAdd, heapSet, heapGet, arrGet_arrSet_self _ _ _ hv]

/-- `add` leaves every other array unchanged. -/
theorem heapGet_builderAdd_ne (h : BuilderHeap) (b : UIChainBuilder) (e : String)
    (p : Obj) (r : Nat) (hr : b.itemsRef ≠ r) :
    heapGet (builderAdd h b e p) r = heapGet h r := by
  simp [builderAdd, heapSet, heapGet, arrGet_arrSet_ne _ _ _ _ hr]

/-- `add` preserves reference validity. -/
theorem validRef_builderAdd (h : BuilderHeap) (b : UIChainBuilder) (e : String)
    (p : Obj) (r : Nat) (hv : validRef h r) : validRef (builderAdd h b e p) r := by
  simpa [validRef, builderAdd, heapSet, length_arrSet] using hv

/-- Every listener of the constructor-time emitter state invokes its
continuation (there is only the sleep listener, and it always does). -/
theorem bridgeEnv_noStall :
    ∀ e h, bridgeEnv e = some h → ∀ ctx, (h ctx).isSome = true := by
  intro e h he ctx
  unfold bridgeEnv at he
  by_cases hev : e = SLEEP_EVENT
  · rw [if_pos hev] at he
    injection he with h1
    subst h1
    simp [sleepListener]
  · rw [if_neg hev] at he
    simp at he

/-! ### Claim theorems -/

/-- C1.  At-most-once consumption: when `id` is declared, `consume(id)`
removes the store entry synchronously — in its action trace the removal
precedes every step of executor work — and leaves a store in which `id` is
absent; a second `consume(id)` run against that store (which is what a
re-entrant call issued before the first promise settles observes, and what
any later call without re-declaration observes) takes the absent branch:
it returns the empty result, performs no step, and leaves the store
unchanged, so the chain's steps are executed exactly once. -/
theorem claim1_at_most_once_consume (env : Env) (st : Store) (id : String)
    (c : DeclaredChain) (hc : storeGet st id = some c) :
    (consume env st id).store = storeDelete st id
  ∧ storeGet (consume env st id).store id = none
  ∧ (consume env st id).trace
      = .removeFromStore id :: (executeChain env c.items).processed.map .stepProcessed
  ∧ consume env (consume env st id).store id
      = ⟨(consume env st id).store, [.warnUnknown id], .unknown⟩ := by
  have hstore : (consume env st id).store = storeDelete st id := by
    simp [consume, hc]
  have habsent : storeGet (consume env st id).store id = none := by
    rw [hstore]
    exact mapGet_mapDelete st id
  refine ⟨hstore, habsent, ?_, ?_⟩
  · simp [consume, hc, executeChain]
  · generalize hS : (consume env st id).store = S at habsent ⊢
    simp [consume, storeGet] at habsent
    simp [consume, storeGet, habsent]

/-- C1 witness: the theorem at the concrete store `demoStore`. -/
theorem claim1_at_most_once_witness :
    storeGet demoStore "t" = some demoChainX
  ∧ ((consume bridgeEnv demoStore "t").store = storeDelete demoStore "t"
  ∧ storeGet (consume bridgeEnv demoStore "t").store "t" = none
  ∧ (consume bridgeEnv demoStore "t").trace
      = .removeFromStore "t" ::
          (executeChain bridgeEnv demoChainX.items).processed.map .stepProcessed
  ∧ consume bridgeEnv (consume bridgeEnv demoStore "t").store "t"
      = ⟨(consume bridgeEnv demoStore "t").store, [.warnUnknown "t"], .unknown⟩) :=
  ⟨rfl, claim1_at_most_once_consume bridgeEnv demoStore "t" demoChainX rfl⟩

/-- C2.  Executor data threading: provided every registered listener invokes
its continuation (the claim's reading of "the value passed to the
continuation"), `consume` of a declared chain processes the steps in declared
order and its promise resolves with exactly the carry-forward fold the spec
describes (`specFinalContext`): carry starts at the empty mapping; each
step's execution context is its parameters merged with `prev` = carry; an
unregistered event passes its execution context through; a registered one
replaces the carry with the value handed to the continuation, defaulting to
the empty mapping. -/
theorem claim2_executor_data_threading (env : Env) (st : Store) (id : String)
    (c : DeclaredChain) (hc : storeGet st id = some c)
    (hns : ∀ e h, env e = some h → ∀ ctx, (h ctx).isSome = true) :
    (consume env st id).result = .done (specFinalContext env c.items)
  ∧ (consume env st id).trace
      = .removeFromStore id :: c.items.map (fun i => .stepProcessed i.event) := by
  have hrun := executeChainFrom_noStall env hns c.items (.obj [])
  constructor
  · simp [consume, hc, executeChain, hrun, specFinalContext]
  · simp [consume, hc, executeChain, hrun, List.map_map]

/-- C2 witness: the theorem at `demoStore` and the constructor-time emitter
state. -/
theorem claim2_data_threading_witness :
    storeGet demoStore "t" = some demoChainX
  ∧ ((consume bridgeEnv demoStore "t").result
      = .done (specFinalContext bridgeEnv demoChainX.items)
  ∧ (consume bridgeEnv demoStore "t").trace
      = .removeFromStore "t" ::
          demoChainX.items.map (fun i => .stepProcessed i.event)) :=
  ⟨rfl, claim2_executor_data_threading bridgeEnv demoStore "t" demoChainX rfl
          bridgeEnv_noStall⟩

/-- C7.  Unknown chain is non-fatal: `consume` of an id that is not in the
store emits exactly the warning diagnostic, performs no executor step, leaves
the store — and with it every declared chain — unchanged, and its promise
resolves immediately with the empty (`undefined`) result. -/
theorem claim7_unknown_chain_nonfatal (env : Env) (st : Store) (id : String)
    (hc : storeGet st id = none) :
    consume env st id = ⟨st, [.warnUnknown id], .unknown⟩ := by
  simp [consume, hc]

/-- C7 witness: consuming the undeclared id `"ghost"` from `demoStore`. -/
theorem claim7_unknown_chain_witness :
    storeGet demoStore "ghost" = none
  ∧ consume bridgeEnv demoStore "ghost"
      = ⟨demoStore, [.warnUnknown "ghost"], .unknown⟩ :=
  ⟨rfl, claim7_unknown_chain_nonfatal bridgeEnv demoStore "ghost" rfl⟩

/-- C10.  Consuming a declared chain whose steps list is empty removes the
chain from the store, dispatches nothing (the trace holds only the removal),
and resolves with the empty mapping — the initial carry-forward context. -/
theorem claim10_empty_chain_consume (env : Env) (st : Store) (id : String)
    (c : DeclaredChain) (hc : storeGet st id = some c) (hempty : c.items = []) :
    consume env st id = ⟨storeDelete st id, [.removeFromStore id], .done (.obj [])⟩ := by
  simp [consume, hc, hempty, executeChain, executeChainFrom]

/-- C10 witness: the theorem at the concrete store `demoStoreE`. -/
theorem claim10_empty_chain_witness :
    storeGet demoStoreE "t0" = some demoEmptyChain
  ∧ demoEmptyChain.items = []
  ∧ consume bridgeEnv demoStoreE "t0"
      = ⟨storeDelete demoStoreE "t0", [.removeFromStore "t0"], .done (.obj [])⟩ :=
  ⟨rfl, rfl, claim10_empty_chain_consume bridgeEnv demoStoreE "t0" demoEmptyChain rfl rfl⟩

/-- C6.  Delay step is a data no-op: with the built-in sleep listener
registered for the reserved event name (as the `UIBridge` constructor does),
running a chain whose next step is a sleep step continues with the
carry-forward context exactly as it was before the sleep step — so the
following step's `prev` equals the pre-sleep context — and, at the listener
level, a missing previous context defaults to the empty mapping.  (The
`duration` field only schedules the timer; time is not modelled.) -/
theorem claim6_sleep_data_noop (env : Env) (hs : env SLEEP_EVENT = some sleepListener)
    (d : JVal) (rest : List ChainItem) (prev : Obj) :
    executeChainFrom env (⟨SLEEP_EVENT, [("duration", d)]⟩ :: rest) (.obj prev)
      = ⟨SLEEP_EVENT :: (executeChainFrom env rest (.obj prev)).processed,
         (executeChainFrom env rest (.obj prev)).result⟩
  ∧ ∀ props : Obj, lookupField props "prev" = none →
      sleepListener props = some (some (.obj [])) := by
  constructor
  · simp [executeChainFrom, hs, sleepListener, lookupField_setField, jsOrEmpty, truthy]
  · intro props hnone
    simp [sleepListener, hnone, jsOrEmpty]

/-- C6 witness: a sleep step before an ordinary step, in the constructor-time
emitter state, with a non-empty pre-sleep context. -/
theorem claim6_sleep_data_noop_witness :
    bridgeEnv SLEEP_EVENT = some sleepListener
  ∧ (executeChainFrom bridgeEnv
        (⟨SLEEP_EVENT, [("duration", .num 50)]⟩ :: [⟨"y", [("v", .num 1)]⟩])
        (.obj [("a", .num 2)])
      = ⟨SLEEP_EVENT ::
           (executeChainFrom bridgeEnv [⟨"y", [("v", .num 1)]⟩]
             (.obj [("a", .num 2)])).processed,
         (executeChainFrom bridgeEnv [⟨"y", [("v", .num 1)]⟩]
             (.obj [("a", .num 2)])).result⟩
  ∧ ∀ props : Obj, lookupField props "prev" = none →
      sleepListener props = some (some (.obj []))) :=
  ⟨rfl, claim6_sleep_data_noop bridgeEnv rfl (.num 50) [⟨"y", [("v", .num 1)]⟩]
          [("a", .num 2)]⟩

/-- C3.  Fault isolation: when a handler body throws, or its returned promise
rejects, and `stop` was not invoked, the wrapper emits exactly the diagnostic
tagged with the event name and invokes the continuation once, with the
pre-handler execution context; consequently the executor proceeds to the next
step carrying that context, exactly as for a no-op handler.  The wrapper is a
total function into `WrapOut` — the error is consumed at the wrapper boundary
and no throwing path reaches the caller of `consume` (`ConsumeResult` has no
rejection case). -/
theorem claim3_fault_isolation (event : String) (props : Obj) :
    wrappedCallback (.throws false) event props
      = ⟨[some (.obj props)], [handlerErrorLog event]⟩
  ∧ wrappedCallback (.retPromise false (.rejected false)) event props
      = ⟨[some (.obj props)], [handlerErrorLog event]⟩
  ∧ ∀ (rest : List ChainItem) (prev : JVal) (iprops : Obj),
      executeChainFrom (singleEnv event (behaviorListener ⟨[], .throws false⟩ event))
          (⟨event, iprops⟩ :: rest) prev
        = ⟨event ::
             (executeChainFrom
               (singleEnv event (behaviorListener ⟨[], .throws false⟩ event))
               rest (.obj (setField iprops "prev" prev))).processed,
           (executeChainFrom
               (singleEnv event (behaviorListener ⟨[], .throws false⟩ event))
               rest (.obj (setField iprops "prev" prev))).result⟩ := by
  refine ⟨rfl, rfl, ?_⟩
  intro rest prev iprops
  simp [executeChainFrom, singleEnv, behaviorListener, allNextCalls, wrappedCallback]

/-- C4.  Handler result forwarding, for a handler that does not call `stop`:
a non-null (non-thenable) object result — returned directly or as the
fulfilment value of a returned promise — is passed to the continuation
verbatim; a defined non-object result is passed as
`{ value: result, prev: <execution context the handler received> }`; an
`undefined` result forwards the received execution context unchanged. -/
theorem claim4_result_forwarding (event : String) (props o : Obj) (s : JVal) :
    wrappedCallback (.ret false (.objVal o)) event props = ⟨[some (.obj o)], []⟩
  ∧ wrappedCallback (.retPromise false (.fulfilled false (.objVal o))) event props
      = ⟨[some (.obj o)], []⟩
  ∧ wrappedCallback (.ret false (.scalarVal s)) event props
      = ⟨[some (.obj [("value", s), ("prev", .obj props)])], []⟩
  ∧ wrappedCallback (.retPromise false (.fulfilled false (.scalarVal s))) event props
      = ⟨[some (.obj [("value", s), ("prev", .obj props)])], []⟩
  ∧ wrappedCallback (.ret false .undef) event props = ⟨[some (.obj props)], []⟩
  ∧ wrappedCallback (.retPromise false (.fulfilled false .undef)) event props
      = ⟨[some (.obj props)], []⟩ :=
  ⟨rfl, rfl, rfl, rfl, rfl, rfl⟩

/-- C5 counterexample.  A handler that first invokes the continuation itself
with `{a: 1}`, then invokes `stop`, and returns `undefined`: `stop` is
invoked and the wrapper indeed never calls the continuation — yet chain
execution does not halt at that step.  The handler's own invocation resolved
the step, so a two-step chain runs to completion, refuting the claim's
assertion that whenever `stop` is invoked the chain halts permanently at that
step for all handler behaviours, including one that itself calls the
continuation. -/
theorem claim5_stop_counterexample :
    stopInvoked (BodyOutcome.ret true .undef) = true
  ∧ (wrappedCallback (.ret true .undef) "e" [("prev", .obj [])]).wrapperNext = []
  ∧ executeChainFrom
        (singleEnv "e"
          (behaviorListener ⟨[some (.obj [("a", .num 1)])], .ret true .undef⟩ "e"))
        [⟨"e", []⟩, ⟨"f", []⟩] (.obj [])
      = ⟨["e", "f"], .done (.obj [("prev", .obj [("a", .num 1)])])⟩ :=
  ⟨rfl, rfl, rfl⟩

/-- C5 (amended).  For every handler behaviour, every event and every
execution context: if the handler does not invoke `stop`, the wrapper's own
code invokes the continuation exactly once; if the handler invokes `stop`,
the wrapper never invokes the continuation, and — provided the handler did
not itself invoke the continuation — chain execution for that consume call
halts permanently at that step (the step stalls and no later step is
processed).  The amendment restricts the halting consequence to handlers that
did not themselves invoke the continuation, which `claim5_stop_counterexample`
shows is necessary. -/
theorem claim5_continuation_discipline (b : HandlerBehavior) (event : String)
    (props : Obj) :
    (stopInvoked b.outcome = false →
      (wrappedCallback b.outcome event props).wrapperNext.length = 1)
  ∧ (stopInvoked b.outcome = true →
      (wrappedCallback b.outcome event props).wrapperNext = [])
  ∧ (stopInvoked b.outcome = true → b.nextInBody = [] →
      ∀ (rest : List ChainItem) (prev : JVal) (iprops : Obj),
        executeChainFrom (singleEnv event (behaviorListener b event))
            (⟨event, iprops⟩ :: rest) prev
          = ⟨[event], .stalled event⟩) := by
  obtain ⟨nb, outc⟩ := b
  have hwn : stopInvoked outc = true → ∀ p : Obj,
      (wrappedCallback outc event p).wrapperNext = [] := by
    intro hs p
    cases outc with
    | ret s v => cases s <;> simp_all [stopInvoked, wrappedCallback]
    | throws s => cases s <;> simp_all [stopInvoked, wrappedCallback]
    | retPromise s p' =>
      cases p' with
      | fulfilled s' v =>
        cases s <;> cases s' <;> simp_all [stopInvoked, wrappedCallback]
      | rejected s' =>
        cases s <;> cases s' <;> simp_all [stopInvoked, wrappedCallback]
  refine ⟨?_, fun hs => hwn hs props, ?_⟩
  · intro hs
    cases outc with
    | ret s v => cases s <;> simp_all [stopInvoked, wrappedCallback]
    | throws s => cases s <;> simp_all [stopInvoked, wrappedCallback]
    | retPromise s p' =>
      cases p' with
      | fulfilled s' v =>
        cases s <;> cases s' <;> simp_all [stopInvoked, wrappedCallback]
      | rejected s' =>
        cases s <;> cases s' <;> simp_all [stopInvoked, wrappedCallback]
  · intro hs hnb rest prev iprops
    simp only at hnb hs
    subst hnb
    simp [executeChainFrom, singleEnv, behaviorListener, allNextCalls,
      hwn hs (setField iprops "prev" prev)]

/-- C5 witness: the exactly-once clause at a plain handler, and the halting
clause at a handler that invokes `stop` and never calls the continuation. -/
theorem claim5_continuation_witness :
    (wrappedCallback (BodyOutcome.ret false .undef) "e" []).wrapperNext.length = 1
  ∧ executeChainFrom
        (singleEnv "e" (behaviorListener ⟨[], .ret true .undef⟩ "e"))
        [⟨"e", []⟩, ⟨"f", []⟩] (.obj [])
      = ⟨["e"], .stalled "e"⟩ :=
  ⟨(claim5_continuation_discipline ⟨[], .ret false .undef⟩ "e" []).1 rfl,
   (claim5_continuation_discipline ⟨[], .ret true .undef⟩ "e" []).2.2 rfl rfl
     [⟨"f", []⟩] (.obj []) []⟩

/-- Unfolding one step of `builderBatch`. -/
theorem builderBatch_cons (h : BuilderHeap) (b : UIChainBuilder)
    (item : UIEventBatchItem) (rest : List UIEventBatchItem) :
    builderBatch h b (item :: rest)
      = builderBatch
          (if isBatchSleep item then builderSleep h b (batchDuration item)
           else builderAdd h b item.event (item.props.getD [])) b rest := rfl

/-- The step a batch item is translated to. -/
def batchTranslate (item : UIEventBatchItem) : ChainItem :=
  if isBatchSleep item then ⟨SLEEP_EVENT, [("duration", batchDuration item)]⟩
  else ⟨item.event, item.props.getD []⟩

/-- C8.  Build snapshot isolation: building through the `chain(...)` proxy
returns a record whose steps array is a fresh copy of the builder's array at
build time (same contents, distinct reference) and whose metadata equals the
builder's accumulated metadata, and registers the record in the store under
the builder's id, overwriting any previous declaration; mutating the builder
afterwards (appending a step) leaves the built snapshot's array unchanged;
and two builders created independently never share a step array. -/
theorem claim8_build_snapshot_isolation (h : BuilderHeap) (st : StoreRef)
    (b : UIChainBuilder) (now : Nat) (hv : validRef h b.itemsRef) :
    heapGet (proxyBuild h st b now).1 (proxyBuild h st b now).2.2.itemsRef
      = heapGet h b.itemsRef
  ∧ (proxyBuild h st b now).2.2.itemsRef ≠ b.itemsRef
  ∧ mapGet (proxyBuild h st b now).2.1 b.chainId = some (proxyBuild h st b now).2.2
  ∧ (proxyBuild h st b now).2.2.metadata = b.metadata
  ∧ (∀ (event : String) (props : Obj),
      heapGet (builderAdd (proxyBuild h st b now).1 b event props)
          (proxyBuild h st b now).2.2.itemsRef
        = heapGet h b.itemsRef)
  ∧ ∀ (id1 id2 : String),
      (newBuilder h id1).2.itemsRef ≠ (newBuilder (newBuilder h id1).1 id2).2.itemsRef := by
  unfold validRef at hv
  have hcontents :
      heapGet (proxyBuild h st b now).1 (proxyBuild h st b now).2.2.itemsRef
        = heapGet h b.itemsRef := by
    simp [proxyBuild, builderBuild, heapAlloc, heapGet, arrGet_append_length]
  have hne : (proxyBuild h st b now).2.2.itemsRef ≠ b.itemsRef := by
    simp only [proxyBuild, builderBuild, heapAlloc]
    omega
  refine ⟨hcontents, hne, ?_, rfl, ?_, ?_⟩
  · exact mapGet_mapSet st b.chainId _
  · intro event props
    rw [heapGet_builderAdd_ne _ _ _ _ _ (fun hc => hne hc.symm)]
    exact hcontents
  · intro id1 id2
    simp only [newBuilder, heapAlloc]
    simp

/-- C8 witness: the theorem at the one-array heap `demoHeap`, `demoBuilder`
and an empty reference-level store. -/
theorem claim8_snapshot_isolation_witness :
    validRef demoHeap demoBuilder.itemsRef
  ∧ (heapGet (proxyBuild demoHeap [] demoBuilder 7).1
        (proxyBuild demoHeap [] demoBuilder 7).2.2.itemsRef
      = heapGet demoHeap demoBuilder.itemsRef
  ∧ (proxyBuild demoHeap [] demoBuilder 7).2.2.itemsRef ≠ demoBuilder.itemsRef
  ∧ mapGet (proxyBuild demoHeap [] demoBuilder 7).2.1 demoBuilder.chainId
      = some (proxyBuild demoHeap [] demoBuilder 7).2.2
  ∧ (proxyBuild demoHeap [] demoBuilder 7).2.2.metadata = demoBuilder.metadata
  ∧ (∀ (event : String) (props : Obj),
      heapGet (builderAdd (proxyBuild demoHeap [] demoBuilder 7).1 demoBuilder event props)
          (proxyBuild demoHeap [] demoBuilder 7).2.2.itemsRef
        = heapGet demoHeap demoBuilder.itemsRef)
  ∧ ∀ (id1 id2 : String),
      (newBuilder demoHeap id1).2.itemsRef
        ≠ (newBuilder (newBuilder demoHeap id1).1 id2).2.itemsRef) :=
  ⟨by simp [validRef, demoHeap, demoBuilder], claim8_build_snapshot_isolation demoHeap [] demoBuilder 7 (by simp [validRef, demoHeap, demoBuilder])⟩

/-- C9.  Batch translation equivalence: `batch(items)` appends to the
builder's existing steps — clearing nothing — the translation of each item in
order, where an item meeting the delay convention of the source guard
(`event === "sleep"` with a truthy `duration`) becomes a sleep step and any
other item becomes an add step with its props, defaulting to the empty
mapping; in particular the two-item batch
`[{event:"sleep", props:{duration:10}}, {event:"z", props:{a:1}}]` mutates the
builder exactly as `sleep(10)` followed by `add("z", {a:1})`. -/
theorem claim9_batch_translation (h : BuilderHeap) (b : UIChainBuilder)
    (hv : validRef h b.itemsRef) (events : List UIEventBatchItem) :
    heapGet (builderBatch h b events) b.itemsRef
      = heapGet h b.itemsRef ++ events.map batchTranslate
  ∧ builderBatch h b
        [⟨"sleep", some [("duration", .num 10)]⟩, ⟨"z", some [("a", .num 1)]⟩]
      = builderAdd (builderSleep h b (.num 10)) b "z" [("a", .num 1)] := by
  have main : ∀ (evs : List UIEventBatchItem) (h : BuilderHeap),
      validRef h b.itemsRef →
      heapGet (builderBatch h b evs) b.itemsRef
        = heapGet h b.itemsRef ++ evs.map batchTranslate := by
    intro evs
    induction evs with
    | nil => intro h hv; simp [builderBatch]
    | cons item rest ih =>
      intro h hv
      rw [builderBatch_cons]
      by_cases hitem : isBatchSleep item = true
      · rw [if_pos hitem]
        unfold builderSleep
        rw [ih _ (validRef_builderAdd _ _ _ _ _ hv),
          heapGet_builderAdd_self _ _ _ _ hv]
        simp [batchTranslate, hitem, List.append_assoc]
      · rw [if_neg hitem]
        rw [ih _ (validRef_builderAdd _ _ _ _ _ hv),
          heapGet_builderAdd_self _ _ _ _ hv]
        simp [batchTranslate, hitem, List.append_assoc]
  exact ⟨main events h hv, rfl⟩

/-- C9 witness: the theorem at `demoHeap` and `demoBuilder`, on the two-item
batch of the claim. -/
theorem claim9_batch_translation_witness :
    validRef demoHeap demoBuilder.itemsRef
  ∧ (heapGet
        (builderBatch demoHeap demoBuilder
          [⟨"sleep", some [("duration", .num 10)]⟩, ⟨"z", some [("a", .num 1)]⟩])
        demoBuilder.itemsRef
      = heapGet demoHeap demoBuilder.itemsRef ++
          [⟨"sleep", some [("duration", .num 10)]⟩,
           ⟨"z", some [("a", .num 1)]⟩].map batchTranslate
  ∧ builderBatch demoHeap demoBuilder
        [⟨"sleep", some [("duration", .num 10)]⟩, ⟨"z", some [("a", .num 1)]⟩]
      = builderAdd (builderSleep demoHeap demoBuilder (.num 10)) demoBuilder "z"
          [("a", .num 1)]) :=
  ⟨by simp [validRef, demoHeap, demoBuilder],
   claim9_batch_translation demoHeap demoBuilder (by simp [validRef, demoHeap, demoBuilder])
     [⟨"sleep", some [("duration", .num 10)]⟩, ⟨"z", some [("a", .num 1)]⟩]⟩

end AgUi
